import Mathlib

/-!
Verification development for the schemata-editor repository store
(`src/store/schema-store.ts`) and its archive codec.

The TypeScript store keeps three keyed collections: the context registry's
`contexts` record, the `contextManifests` JS `Map`, and the `schemas` cache
JS `Map`. Both JS records (under string keys) and JS `Map`s are
insertion-ordered key/value sequences with first-class lookup, in-place
replacement on `set`/spread, and key removal; we model both by `KVList`,
an association list over `String` keys. Deep equality "modulo map iteration
order" is lookup-equality of two `KVList`s.
-/

/-- Association list with string keys, modeling a JS `Map` or a JS object
used as a record. -/
abbrev KVList (α : Type) := List (String × α)

/-- Lookup, `map.get(k)` / `obj[k]`: first entry whose key matches. -/
def kvGet {α : Type} (m : KVList α) (k : String) : Option α :=
  (m.find? (fun p => p.1 == k)).map (fun p => p.2)

/-- `map.set(k, v)` / `{...obj, [k]: v}`: replace in place if the key is
present (keeping its position), else append at the end. -/
def kvSet {α : Type} (m : KVList α) (k : String) (v : α) : KVList α :=
  if m.any (fun p => p.1 == k) then
    m.map (fun p => if p.1 == k then (k, v) else p)
  else
    m ++ [(k, v)]

/-- `map.delete(k)` / `const {[k]: _, ...rest} = obj`. -/
def kvDel {α : Type} (m : KVList α) (k : String) : KVList α :=
  m.filter (fun p => p.1 != k)

/-- The keys, in order. -/
def kvKeys {α : Type} (m : KVList α) : List String :=
  m.map (fun p => p.1)

@[simp]
theorem kvGet_nil {α : Type} (k : String) : kvGet ([] : KVList α) k = none := rfl

@[simp]
theorem kvGet_cons {α : Type} (p : String × α) (m : KVList α) (k : String) :
    kvGet (p :: m) k = if p.1 = k then some p.2 else kvGet m k := by
  by_cases h : p.1 = k
  · simp [kvGet, List.find?, h]
  · simp [kvGet, List.find?, beq_eq_false_iff_ne.2 h, h]

theorem kvGet_append {α : Type} (m₁ m₂ : KVList α) (k : String) :
    kvGet (m₁ ++ m₂) k = (kvGet m₁ k).or (kvGet m₂ k) := by
  induction m₁ with
  | nil => simp
  | cons p t ih =>
    by_cases h : p.1 = k <;> simp [h, ih]

@[simp]
theorem kvKeys_nil {α : Type} : kvKeys ([] : KVList α) = [] := rfl

@[simp]
theorem kvKeys_cons {α : Type} (p : String × α) (m : KVList α) :
    kvKeys (p :: m) = p.1 :: kvKeys m := rfl

theorem kvGet_mem {α : Type} {m : KVList α} {k : String} {v : α}
    (h : kvGet m k = some v) : (k, v) ∈ m := by
  induction m with
  | nil => simp at h
  | cons p t ih =>
    rcases p with ⟨a, b⟩
    rw [kvGet_cons] at h
    by_cases hp : a = k
    · subst hp
      simp at h
      subst h
      exact List.mem_cons_self _ _
    · rw [if_neg hp] at h
      exact List.mem_cons_of_mem _ (ih h)

theorem kvGet_eq_none_of_not_mem {α : Type} {m : KVList α} {k : String}
    (h : k ∉ kvKeys m) : kvGet m k = none := by
  induction m with
  | nil => rfl
  | cons p t ih =>
    rw [kvKeys_cons, List.mem_cons] at h
    push_neg at h
    rw [kvGet_cons, if_neg (fun he => h.1 he.symm)]
    exact ih h.2

theorem kvGet_isSome_of_mem {α : Type} {m : KVList α} {k : String} {v : α}
    (h : (k, v) ∈ m) : (kvGet m k).isSome := by
  induction m with
  | nil => simp at h
  | cons p t ih =>
    rw [kvGet_cons]
    by_cases hp : p.1 = k
    · simp [hp]
    · rcases List.mem_cons.1 h with he | ht
      · subst he; simp at hp
      · simp [hp, ih ht]

/-- In a list with no duplicate keys, lookup finds the member. -/
theorem kvGet_eq_of_mem_of_nodup {α : Type} {m : KVList α} {k : String} {v : α}
    (hmem : (k, v) ∈ m) (hnd : (kvKeys m).Nodup) : kvGet m k = some v := by
  induction m with
  | nil => simp at hmem
  | cons p t ih =>
    rw [kvGet_cons]
    rcases List.mem_cons.1 hmem with he | ht
    · subst he; simp
    · by_cases hp : p.1 = k
      · exfalso
        rw [kvKeys_cons, List.nodup_cons] at hnd
        subst hp
        exact hnd.1 (List.mem_map.2 ⟨(p.1, v), ht, rfl⟩)
      · rw [if_neg hp]
        rw [kvKeys_cons, List.nodup_cons] at hnd
        exact ih ht hnd.2

theorem kvAny_iff_mem {α : Type} (m : KVList α) (k : String) :
    (m.any (fun p => p.1 == k)) = true ↔ k ∈ kvKeys m := by
  simp only [List.any_eq_true, beq_iff_eq, kvKeys, List.mem_map]

theorem kvGet_mapReplace {α : Type} (m : KVList α) (k k' : String) (v : α) :
    kvGet (m.map (fun p => if p.1 = k then (k, v) else p)) k' =
      if k' = k then (if k ∈ kvKeys m then some v else none)
      else kvGet m k' := by
  induction m with
  | nil => by_cases h : k' = k <;> simp [h]
  | cons q t ih =>
    by_cases hq : q.1 = k
    · by_cases hk : k' = k
      · subst hk
        simp [hq, ih]
      · have hk' : ¬ k = k' := fun he => hk he.symm
        simp [hq, hk, hk', ih]
    · by_cases hq' : q.1 = k'
      · have hk : ¬ k' = k := fun he => hq (hq'.trans he)
        simp [hq, hq', hk, ih]
      · have hq'' : ¬ k' = q.1 := fun he => hq' he.symm
        by_cases hk : k' = k
        · subst hk
          simp [hq, hq', hq'', ih]
        · simp [hq, hq', hq'', hk, ih]

/-- Master lemma: lookup after `set` behaves like a pointwise function
update. -/
theorem kvGet_kvSet {α : Type} (m : KVList α) (k k' : String) (v : α) :
    kvGet (kvSet m k v) k' = if k' = k then some v else kvGet m k' := by
  unfold kvSet
  have hfun : (fun p : String × α => if p.1 == k then (k, v) else p)
      = (fun p => if p.1 = k then (k, v) else p) := by
    funext p; by_cases hp : p.1 = k <;> simp [hp]
  by_cases h : m.any (fun p => p.1 == k)
  · rw [if_pos h, hfun, kvGet_mapReplace]
    have hm : k ∈ kvKeys m := (kvAny_iff_mem m k).1 h
    simp [hm]
  · rw [if_neg h, kvGet_append]
    have hnone : kvGet m k = none :=
      kvGet_eq_none_of_not_mem (fun hm => h ((kvAny_iff_mem m k).2 hm))
    by_cases hk : k' = k
    · subst hk; simp [hnone]
    · have hk' : ¬ k = k' := fun he => hk he.symm
      cases hg : kvGet m k' with
      | none => simp [hk, hk', hg]
      | some w => simp [hk, hg]

@[simp]
theorem kvGet_kvSet_self {α : Type} (m : KVList α) (k : String) (v : α) :
    kvGet (kvSet m k v) k = some v := by
  rw [kvGet_kvSet]; simp

@[simp]
theorem kvGet_kvSet_ne {α : Type} (m : KVList α) (k k' : String) (v : α)
    (h : k' ≠ k) : kvGet (kvSet m k v) k' = kvGet m k' := by
  rw [kvGet_kvSet, if_neg h]

theorem kvGet_kvDel {α : Type} (m : KVList α) (k k' : String) :
    kvGet (kvDel m k) k' = if k' = k then none else kvGet m k' := by
  induction m with
  | nil => unfold kvDel; by_cases h : k' = k <;> simp [h]
  | cons p t ih =>
    unfold kvDel at *
    rw [List.filter_cons]
    by_cases hp : p.1 = k
    · rw [if_neg (by simp [hp]), ih, kvGet_cons]
      by_cases hk : k' = k
      · simp [hk]
      · rw [if_neg hk, if_neg hk, if_neg (by rw [hp]; exact fun he => hk he.symm)]
    · rw [if_pos (by simp [hp]), kvGet_cons, kvGet_cons]
      by_cases hp' : p.1 = k'
      · have : ¬ k' = k := fun he => hp (hp'.trans he)
        simp [hp', this]
      · simp only [hp', if_false]
        rw [ih]

/-!
Data model, translated from `src/types/schema.ts`. TypeScript unions of
`LocalizedString | string` become the sum `LocStrOr`; optional fields
become `Option`. JSON numbers that no claim computes with are carried as
`Int` (for `order`, validation bounds); `output_template` is an arbitrary
JSON object, carried by `JsonValue` (numeric literals kept as their
source text, since nothing computes with them).
-/

structure LocalizedString where
  de : String
  en : String
deriving DecidableEq, Repr

/-- A value typed `LocalizedString | string` in the source. -/
inductive LocStrOr where
  | str (s : String)
  | loc (l : LocalizedString)
deriving DecidableEq, Repr

/-- A value typed `LocalizedString | string[]` (`altLabels`). -/
inductive AltLabels where
  | loc (l : LocalizedString)
  | strs (l : List String)
deriving DecidableEq, Repr

/-- Arbitrary JSON, used only as an opaque payload (`output_template`). -/
inductive JsonValue where
  | null
  | bool (b : Bool)
  | num (text : String)
  | str (s : String)
  | arr (elems : List JsonValue)
  | obj (members : List (String × JsonValue))

structure VocabularyConcept where
  label : LocStrOr
  uri : Option String := none
  value : Option String := none
  description : Option LocStrOr := none
  altLabels : Option AltLabels := none
  icon : Option String := none
  schema_file : Option String := none
  broader : Option String := none
  narrower : Option (List String) := none
deriving DecidableEq, Repr

inductive VocabType where
  | skos
  | closed
  | «open»
deriving DecidableEq, Repr

structure Vocabulary where
  type : VocabType
  scheme : Option String := none
  hierarchical : Option Bool := none
  concepts : List VocabularyConcept
  skohubUrl : Option String := none
deriving DecidableEq, Repr

structure IndexConfig where
  fulltext : Option Bool := none
  keyword : Option Bool := none
deriving DecidableEq, Repr

inductive CaseKind where
  | lower
  | upper
  | title
deriving DecidableEq, Repr

structure NormalizationConfig where
  trim : Option Bool := none
  collapseWhitespace : Option Bool := none
  deduplicate : Option Bool := none
  map_labels_to_uris : Option Bool := none
  «case» : Option CaseKind := none
deriving DecidableEq, Repr

structure ValidationConfig where
  pattern : Option String := none
  minLength : Option Int := none
  maxLength : Option Int := none
  min : Option Int := none
  max : Option Int := none
  integer : Option Bool := none
deriving DecidableEq, Repr

inductive Datatype where
  | string
  | array
  | uri
  | number
  | date
  | boolean
  | object
deriving DecidableEq, Repr

structure PromptInstructions where
  labelExactMatch : Option Bool := none
  extractionHints : Option String := none
deriving DecidableEq, Repr

/-- A value typed `string | string[]` (inside `examples`). -/
inductive StrOrList where
  | str (s : String)
  | list (l : List String)
deriving DecidableEq, Repr

structure Examples where
  de : Option (List StrOrList) := none
  en : Option (List StrOrList) := none
deriving DecidableEq, Repr

/-- `FieldVariant`, parameterized by the field type to tie the
`SchemaField` → `SystemConfig` → `FieldItems` → `FieldVariant` →
`SchemaField` recursion below. -/
structure FieldVariantF (Fld : Type) where
  «@type» : String
  label : LocStrOr
  description : Option LocStrOr := none
  fields : List Fld

structure FieldItemsF (Fld : Type) where
  datatype : String
  discriminator : Option String := none
  variants : Option (List (FieldVariantF Fld)) := none

structure SystemConfigF (Items : Type) where
  path : String
  uri : String
  datatype : Datatype
  multiple : Bool
  required : Bool
  ask_user : Bool
  ai_fillable : Bool
  repo_field : Option Bool := none
  index : Option IndexConfig := none
  vocabulary : Option Vocabulary := none
  normalization : Option NormalizationConfig := none
  validation : Option ValidationConfig := none
  items : Option Items := none

structure SchemaFieldF (Items : Type) where
  id : String
  group : Option String := none
  label : LocStrOr
  description : Option LocStrOr := none
  examples : Option Examples := none
  prompt : Option LocalizedString := none
  promptInstructions : Option PromptInstructions := none
  system : SystemConfigF Items

/-- Ties the recursive knot of `FieldItems.variants[].fields[].system.items`. -/
inductive FieldItems where
  | mk (val : FieldItemsF (SchemaFieldF FieldItems))

/-- `SchemaField` of the source. -/
abbrev SchemaField := SchemaFieldF FieldItems

/-- `SystemConfig` of the source. -/
abbrev SystemConfig := SystemConfigF FieldItems

structure SchemaGroup where
  id : String
  label : LocStrOr
  description : Option LocStrOr := none
  order : Option Int := none

structure SchemaDefinition where
  profileId : String
  version : String
  «@context» : Option (KVList String) := none
  groups : List SchemaGroup
  fields : List SchemaField
  output_template : Option (KVList JsonValue) := none

inductive ChangeType where
  | added
  | changed
  | removed
  | fixed
deriving DecidableEq, Repr

structure ChangelogEntry where
  date : String
  type : ChangeType
  description : String
  fieldId : Option String := none
  author : Option String := none
deriving DecidableEq, Repr

structure VersionEntry where
  releaseDate : String
  isDefault : Option Bool := none
  schemas : List String
  changelog : Option (List ChangelogEntry) := none
deriving DecidableEq, Repr

structure ContextManifest where
  contextName : String
  name : String
  basedOn : Option String := none
  versions : KVList VersionEntry
deriving DecidableEq, Repr

structure ContextEntry where
  name : String
  description : Option String := none
  defaultVersion : String
  path : String
  basedOn : Option String := none
deriving DecidableEq, Repr

structure ContextRegistry where
  contexts : KVList ContextEntry
  defaultContext : String
deriving DecidableEq, Repr

/-- `ContentType`: the projection target of `getContentTypes`. The source
casts `concept.label` to `{de, en}` but passes the runtime value through
unchanged, so the label keeps the union type. -/
structure ContentType where
  label : LocStrOr
  icon : String
  schema_file : String

/-!
Store state and operations, translated from `src/store/schema-store.ts`.

The browser-only concerns are at the model boundary:
* network fetches (`loadContextRegistry`, `loadContextManifest`,
  `loadSchema`, `loadAllSchemas`) read an external document store that is
  not part of the in-memory state; in this model the cache is exactly the
  in-memory state, so those fetch steps contribute nothing (a fully
  materialized store),
* `new Date()` timestamps used by `createVersion` are passed in as
  explicit string parameters,
* `JSON.parse(JSON.stringify(x))` deep cloning is the identity on values.
-/

structure Store where
  contextRegistry : Option ContextRegistry
  contextManifests : KVList ContextManifest
  schemas : KVList SchemaDefinition
  activeContext : String
  activeVersion : String
  activeSchemaFile : Option String
  activeFieldId : Option String
  hasUnsavedChanges : Bool
  isLoading : Bool
  error : Option String
  sidebarCollapsed : Bool

/-- `initialState` of the source. -/
def initialState : Store where
  contextRegistry := none
  contextManifests := []
  schemas := []
  activeContext := "default"
  activeVersion := "1.8.0"
  activeSchemaFile := none
  activeFieldId := none
  hasUnsavedChanges := false
  isLoading := false
  error := none
  sidebarCollapsed := false

/-- JS `s || d` for strings: the empty string is falsy. -/
def jsOrS (s d : String) : String := if s = "" then d else s

/-- JS `o || d` where `o` may be `undefined` or an empty string. -/
def jsOrOpt (o : Option String) (d : String) : String :=
  match o with
  | some s => jsOrS s d
  | none => d

/-- Truthiness of an optional string (`undefined` and `""` are falsy). -/
def jsTruthyStr (o : Option String) : Bool :=
  match o with
  | some s => s ≠ ""
  | none => false

/-- The composite cache key `"{context}@{version}/{file}"`. -/
def cacheKey (contextName version schemaFile : String) : String :=
  contextName ++ "@" ++ version ++ "/" ++ schemaFile

/-- `setActiveContext(contextName)`. -/
def setActiveContext (s : Store) (contextName : String) : Store :=
  match s.contextRegistry with
  | none => s
  | some registry =>
    match kvGet registry.contexts contextName with
    | none => s
    | some entry =>
      { s with activeContext := contextName, activeVersion := entry.defaultVersion,
               activeSchemaFile := none, activeFieldId := none }

/-- `setActiveVersion(version)`. -/
def setActiveVersion (s : Store) (version : String) : Store :=
  { s with activeVersion := version, activeSchemaFile := none, activeFieldId := none }

/-- `setActiveSchema(schemaFile)`. The follow-up `loadSchema` call is an
external fetch; on a fully materialized store it re-reads what the cache
already holds, so the cache is unchanged here. -/
def setActiveSchema (s : Store) (schemaFile : Option String) : Store :=
  { s with activeSchemaFile := schemaFile, activeFieldId := none }

/-- `setActiveField(fieldId)`. -/
def setActiveField (s : Store) (fieldId : Option String) : Store :=
  { s with activeFieldId := fieldId }

/-- `deleteContext(contextName)`. -/
def deleteContext (s : Store) (contextName : String) : Store :=
  if contextName = "default" then
    { s with error := some "Cannot delete default context" }
  else
    match s.contextRegistry with
    | none => s
    | some registry =>
      { s with
        contextRegistry := some { registry with contexts := kvDel registry.contexts contextName },
        contextManifests := kvDel s.contextManifests contextName,
        activeContext := "default",
        hasUnsavedChanges := true }

/-- `deleteVersion(contextName, version)`. -/
def deleteVersion (s : Store) (contextName version : String) : Store :=
  match kvGet s.contextManifests contextName with
  | none => s
  | some manifest =>
    let remainingVersions := kvDel manifest.versions version
    if remainingVersions.length = 0 then
      { s with error := some "Kann letzte Version nicht löschen" }
    else
      { s with
        contextManifests := kvSet s.contextManifests contextName
          { manifest with versions := remainingVersions },
        hasUnsavedChanges := true }

/-- The schema-copying loop of `createVersion`: the source reads base
documents from the same map it is extending (`schemas.get` on the map
being mutated), so the accumulator is both the read and the write side. -/
def copyVersionSchemas (contextName baseVersionStr version : String)
    (baseSchemas : List String) (m : KVList SchemaDefinition) : KVList SchemaDefinition :=
  baseSchemas.foldl (fun acc schemaFile =>
    match kvGet acc (cacheKey contextName baseVersionStr schemaFile) with
    | none => acc
    | some baseSchema =>
      kvSet acc (cacheKey contextName version schemaFile)
        { baseSchema with version := version }) m

/-- `createVersion(contextName, version, basedOnVersion?)`. `releaseDate`
and `nowISO` stand for the two `new Date()` strings the source computes.
When the base version cannot be resolved, the source's template literal
stringifies `undefined`; `baseVersionStr` reproduces that. -/
def createVersion (releaseDate nowISO : String) (s : Store)
    (contextName version : String) (basedOnVersion : Option String) : Store :=
  match kvGet s.contextManifests contextName with
  | none => s
  | some manifest =>
    let baseVersion : Option String :=
      match basedOnVersion with
      | some b => if b = "" then (kvKeys manifest.versions).head? else some b
      | none => (kvKeys manifest.versions).head?
    let baseVersionStr : String :=
      match baseVersion with
      | some b => b
      | none => "undefined"
    let baseSchemas : List String :=
      match baseVersion.bind (fun b => kvGet manifest.versions b) with
      | some ve => ve.schemas
      | none => ["core.json"]
    let schemas := copyVersionSchemas contextName baseVersionStr version baseSchemas s.schemas
    let updatedManifest : ContextManifest :=
      { manifest with
        versions := kvSet manifest.versions version
          { releaseDate := releaseDate
            isDefault := some false
            schemas := baseSchemas
            changelog := some [
              { date := nowISO
                type := ChangeType.added
                description := "Version " ++ version ++ " erstellt basierend auf " ++ baseVersionStr }] } }
    { s with
      contextManifests := kvSet s.contextManifests contextName updatedManifest,
      schemas := schemas,
      hasUnsavedChanges := true }

/-- `deleteGroup(schemaFile, groupId)`: drops the group and clears the
`group` reference of every field that pointed at it. -/
def deleteGroup (s : Store) (schemaFile groupId : String) : Store :=
  let key := cacheKey s.activeContext s.activeVersion schemaFile
  match kvGet s.schemas key with
  | none => s
  | some schema =>
    let updatedGroups := schema.groups.filter (fun g => g.id ≠ groupId)
    let updatedFields := schema.fields.map (fun f =>
      if f.group = some groupId then { f with group := none } else f)
    { s with
      schemas := kvSet s.schemas key
        { schema with groups := updatedGroups, fields := updatedFields },
      hasUnsavedChanges := true }

/-- The effective insertion index of `arr.splice(start, 0, x)` on an array
of length `n`: negative values count from the end, clamped to `[0, n]`. -/
def spliceIndex (n : Nat) (i : Int) : Nat :=
  if i < 0 then ((n : Int) + i).toNat else min i.toNat n

/-- `arr.splice(j, 0, x)` with `j` already clamped. -/
def jsInsertAt {α : Type} (l : List α) (j : Nat) (x : α) : List α :=
  l.take j ++ x :: l.drop j

/-- `moveField(schemaFile, fieldId, newIndex)`. -/
def moveField (s : Store) (schemaFile fieldId : String) (newIndex : Int) : Store :=
  let key := cacheKey s.activeContext s.activeVersion schemaFile
  match kvGet s.schemas key with
  | none => s
  | some schema =>
    match schema.fields.findIdx? (fun f => f.id == fieldId) with
    | none => s
    | some currentIndex =>
      match schema.fields[currentIndex]? with
      | none => s
      | some field =>
        let rest := schema.fields.eraseIdx currentIndex
        let newFields := jsInsertAt rest (spliceIndex rest.length newIndex) field
        { s with
          schemas := kvSet s.schemas key { schema with fields := newFields },
          hasUnsavedChanges := true }

/-- `getContentTypes()`. -/
def getContentTypes (s : Store) : List ContentType :=
  match kvGet s.schemas (cacheKey s.activeContext s.activeVersion "core.json") with
  | none => []
  | some schema =>
    match schema.fields.find? (fun f => f.id == "ccm:oeh_flex_lrt") with
    | none => []
    | some field =>
      match field.system.vocabulary with
      | none => []
      | some voc =>
        (voc.concepts.filter (fun c => jsTruthyStr c.schema_file)).map (fun c =>
          { label := c.label
            icon := jsOrOpt c.icon "article"
            schema_file := c.schema_file.getD "" })

/-!
Archive codec (`exportAsZip` / `importFromZip`) and the non-ZIP import
path (`importData`).

A ZIP archive is a path-addressed list of file entries. File contents are
modeled post-`JSON.parse`: `exportAsZip` writes `JSON.stringify(x, null, 2)`
of in-memory values and `JSON.parse` recovers exactly those values, so an
entry carries the parsed document directly; `malformed` stands for text on
which `JSON.parse` throws. `parseRegistryFile` / `parseManifestFile` fail
(throw, caught by the surrounding try/catch) exactly where the import
code's subsequent property walk (`Object.entries(x.contexts)`,
`Object.entries(manifest.versions)`, iterating `versionEntry.schemas`)
would throw on a document of the wrong shape.
-/

inductive FileContent where
  | reg (r : ContextRegistry)
  | man (m : ContextManifest)
  | sch (d : SchemaDefinition)
  | malformed

/-- A ZIP archive as handed to `JSZip.loadAsync`: either unreadable
(`loadAsync` rejects) or a list of named file entries. -/
inductive ZipData where
  | corrupt
  | files (entries : List (String × FileContent))

def parseRegistryFile : FileContent → Option ContextRegistry
  | FileContent.reg r => some r
  | _ => none

def parseManifestFile : FileContent → Option ContextManifest
  | FileContent.man m => some m
  | _ => none

def parseSchemaFile : FileContent → Option SchemaDefinition
  | FileContent.sch d => some d
  | _ => none

/-- The folder name `exportAsZip` / `importFromZip` use for a context:
`registry.contexts[contextName]?.path || contextName`. -/
def resolvedPath (registry : ContextRegistry) (contextName : String) : String :=
  jsOrOpt ((kvGet registry.contexts contextName).map ContextEntry.path) contextName

/-- `"{contextPath}/manifest.json"`. -/
def manifestPath (contextPath : String) : String :=
  contextPath ++ "/manifest.json"

/-- `"{contextPath}/v{version}/{schemaFile}"`. -/
def schemaPath (contextPath version schemaFile : String) : String :=
  contextPath ++ "/v" ++ version ++ "/" ++ schemaFile

/-- The file list built by `exportAsZip` for a store whose registry is
`registry`: the registry at the archive root, then per manifest its
`manifest.json` and one file per cached schema of each version. -/
def exportZipEntries (s : Store) (registry : ContextRegistry) :
    List (String × FileContent) :=
  ("context-registry.json", FileContent.reg registry) ::
  s.contextManifests.flatMap (fun cm =>
    (manifestPath (resolvedPath registry cm.1), FileContent.man cm.2) ::
    cm.2.versions.flatMap (fun vv =>
      vv.2.schemas.filterMap (fun schemaFile =>
        (kvGet s.schemas (cacheKey cm.1 vv.1 schemaFile)).map (fun sch =>
          (schemaPath (resolvedPath registry cm.1) vv.1 schemaFile, FileContent.sch sch)))))

/-- `exportAsZip()`: `none` when no registry is loaded (the source returns
without producing an archive). `loadAllSchemas` precedes this in the
source; on a fully materialized store it is the identity. -/
def exportAsZip (s : Store) : Option (List (String × FileContent)) :=
  s.contextRegistry.map (exportZipEntries s)

/-- The schema-loading loop of `importFromZip` for one manifest:
`none` models a thrown parse error. -/
def importZipSchemas (entries : List (String × FileContent))
    (contextName contextPath : String) (manifest : ContextManifest)
    (ss : KVList SchemaDefinition) : Option (KVList SchemaDefinition) :=
  manifest.versions.foldlM (fun ss vv =>
    vv.2.schemas.foldlM (fun ss schemaFile =>
      match kvGet entries (schemaPath contextPath vv.1 schemaFile) with
      | none => some ss
      | some fc =>
        (parseSchemaFile fc).map (fun sch =>
          kvSet ss (cacheKey contextName vv.1 schemaFile) sch)) ss) ss

/-- The body of `importFromZip` after `loadAsync` succeeded: reads the
root registry, then walks every context named in it. `none` models any
thrown error (missing root registry is reported the same way by the
caller: return `false`, no state change). -/
def importZipCore (entries : List (String × FileContent)) :
    Option (ContextRegistry × KVList ContextManifest × KVList SchemaDefinition) := do
  let regFile ← kvGet entries "context-registry.json"
  let registry ← parseRegistryFile regFile
  let acc ← registry.contexts.foldlM (fun acc ce =>
    match kvGet entries (manifestPath (jsOrS ce.2.path ce.1)) with
    | none => pure acc
    | some mf => do
      let manifest ← parseManifestFile mf
      let ss ← importZipSchemas entries ce.1 (jsOrS ce.2.path ce.1) manifest acc.2
      pure (kvSet acc.1 ce.1 manifest, ss))
    (([] : KVList ContextManifest), ([] : KVList SchemaDefinition))
  pure (registry, acc.1, acc.2)

/-- `importFromZip(file)`: commits the three collections wholesale on full
success, otherwise returns `false` leaving the state untouched. -/
def importFromZip (s : Store) (file : ZipData) : Bool × Store :=
  match file with
  | ZipData.corrupt => (false, s)
  | ZipData.files entries =>
    match importZipCore entries with
    | none => (false, s)
    | some (registry, ms, ss) =>
      (true, { s with contextRegistry := some registry, contextManifests := ms,
                      schemas := ss, hasUnsavedChanges := true })

/-- One context's payload inside an `importData` document:
`manifestFile` models `contextData['manifest.json']`. -/
structure ImportContextData where
  manifestFile : Option ContextManifest := none
  versions : Option (KVList (KVList SchemaDefinition)) := none

/-- The top-level document accepted by `importData`, post-`JSON.parse`:
`registryFile` models `data['context-registry.json']` (`none` when that
key is absent or its value falsy), `contexts` models `data.contexts`. -/
structure ImportDoc where
  registryFile : Option ContextRegistry := none
  contexts : Option (KVList ImportContextData) := none

/-- `importData(jsonData)`; the argument is `none` when `JSON.parse`
throws on the input string. -/
def importData (s : Store) (jsonData : Option ImportDoc) : Bool × Store :=
  match jsonData with
  | none => (false, s)
  | some data =>
    if data.registryFile.isNone && data.contexts.isNone then
      (false, s)
    else
      let s1 :=
        match data.registryFile with
        | some r => { s with contextRegistry := some r }
        | none => s
      let s2 :=
        match data.contexts with
        | some ctxs =>
          let acc := ctxs.foldl
            (fun (acc : KVList ContextManifest × KVList SchemaDefinition)
                 (cd : String × ImportContextData) =>
            let ms :=
              match cd.2.manifestFile with
              | some m => kvSet acc.1 cd.1 m
              | none => acc.1
            let ss :=
              match cd.2.versions with
              | some vs => vs.foldl
                  (fun (ss : KVList SchemaDefinition)
                       (vv : String × KVList SchemaDefinition) =>
                  vv.2.foldl (fun ss (fv : String × SchemaDefinition) =>
                    kvSet ss (cacheKey cd.1 vv.1 fv.1) fv.2) ss) acc.2
              | none => acc.2
            (ms, ss)) (s1.contextManifests, s1.schemas)
          { s1 with contextManifests := acc.1, schemas := acc.2 }
        | none => s1
      (true, { s2 with hasUnsavedChanges := true })

/-! Auxiliary list and string lemmas. -/

theorem findIdxQ_lt_length {α : Type} {p : α → Bool} {l : List α} {i : Nat}
    (h : l.findIdx? p = some i) : i < l.length := by
  induction l generalizing i with
  | nil => simp [List.findIdx?] at h
  | cons a t ih =>
    rw [List.findIdx?_cons] at h
    by_cases hp : p a
    · simp [hp] at h
      simp [← h]
    · simp [hp] at h
      rcases h with ⟨j, hj, he⟩
      have := ih hj
      simp [← he]
      omega

theorem perm_cons_eraseIdx {α : Type} {l : List α} {i : Nat} {x : α}
    (h : l[i]? = some x) : (x :: l.eraseIdx i).Perm l := by
  induction l generalizing i with
  | nil => simp at h
  | cons a t ih =>
    cases i with
    | zero =>
      simp at h
      subst h
      simp [List.eraseIdx]
    | succ i =>
      simp at h
      simp only [List.eraseIdx]
      exact (List.Perm.swap a x _).trans ((ih h).cons a)

theorem jsInsertAt_perm {α : Type} (l : List α) (j : Nat) (x : α) :
    (jsInsertAt l j x).Perm (x :: l) := by
  have h := List.take_append_drop j l
  have hp := @List.perm_middle _ x (l.take j) (l.drop j)
  rw [h] at hp
  exact hp

theorem string_append_right_inj {a b c : String} (h : a ++ b = a ++ c) : b = c := by
  have hd : a.data ++ b.data = a.data ++ c.data := congrArg String.data h
  have := List.append_cancel_left hd
  cases b; cases c; simp_all

/-- A string that extends a prefix whose characters disagree with `b`'s
never equals `b`; used to discharge cache-key freshness at concrete
inputs. -/
theorem append_ne_of_take_ne {a b : String}
    (h : b.data.take a.data.length ≠ a.data) (f : String) : a ++ f ≠ b := by
  intro he
  apply h
  subst he
  rw [show (a ++ f).data = a.data ++ f.data from rfl, List.take_left]

theorem cacheKey_inj_file {ctx ver f f' : String}
    (h : cacheKey ctx ver f = cacheKey ctx ver f') : f = f' := by
  unfold cacheKey at h
  exact string_append_right_inj
    (a := ctx ++ "@" ++ ver ++ "/") (by simpa [String.append_assoc] using h)

/-!
Concrete fixtures used by witnesses and counterexamples: a registry with
the default context, a manifest with two versions, and a `core.json`
schema document carrying the content-type vocabulary.
-/

def sys0 : SystemConfig :=
  { path := "p", uri := "u", datatype := Datatype.string, multiple := false,
    required := false, ask_user := true, ai_fillable := true }

def fld0 (i : String) (g : Option String) : SchemaField :=
  { id := i, group := g, label := LocStrOr.str i, system := sys0 }

def voc0 : Vocabulary :=
  { type := VocabType.closed,
    concepts := [
      { label := LocStrOr.loc ⟨"Ereignis", "Event"⟩, schema_file := some "event.json",
        icon := some "event" },
      { label := LocStrOr.loc ⟨"x", "x"⟩ } ] }

def coreSchema : SchemaDefinition :=
  { profileId := "core", version := "1.0.0",
    groups := [ { id := "general", label := LocStrOr.str "G" } ],
    fields := [ { id := "ccm:oeh_flex_lrt", label := LocStrOr.str "lrt",
                  system := { sys0 with vocabulary := some voc0 } },
                fld0 "cclom:title" (some "general") ] }

def reg0 : ContextRegistry :=
  { contexts := [("default", { name := "Default", defaultVersion := "1.0.0", path := "default" })],
    defaultContext := "default" }

def man0 : ContextManifest :=
  { contextName := "default", name := "Default",
    versions := [
      ("1.0.0", { releaseDate := "2026-01-01", isDefault := some true, schemas := ["core.json"] }),
      ("2.0.0", { releaseDate := "2026-01-02", schemas := ["core.json"] })] }

def st0 : Store :=
  { initialState with
    contextRegistry := some reg0,
    contextManifests := [("default", man0)],
    schemas := [(cacheKey "default" "1.0.0" "core.json", coreSchema),
                (cacheKey "default" "2.0.0" "core.json", { coreSchema with version := "2.0.0" })],
    activeContext := "default",
    activeVersion := "1.0.0" }

def manSolo : ContextManifest :=
  { man0 with
    versions := [("1.0.0", { releaseDate := "2026-01-01", schemas := ["core.json"] })] }

def stSolo : Store :=
  { st0 with contextManifests := [("default", manSolo)] }

/-!
Claims.
-/

/-- C4: for every prior state, `deleteContext("default")` never removes
the `"default"` entry from the context registry: it sets an error
message, does not throw, and leaves the registry and manifest map
unchanged. -/
theorem deleteContext_default_protected (s : Store) :
    (deleteContext s "default").contextRegistry = s.contextRegistry ∧
    (deleteContext s "default").contextManifests = s.contextManifests ∧
    (deleteContext s "default").schemas = s.schemas ∧
    (deleteContext s "default").error = some "Cannot delete default context" := by
  unfold deleteContext
  simp

/-- C5: for every context whose manifest contains exactly one version
`V`, `deleteVersion(ctx, V)` leaves that manifest's versions mapping
unchanged (across the whole manifest map), sets an error message, and
never leaves a manifest with zero versions. -/
theorem deleteVersion_last_version_protected (s : Store) (ctx V : String)
    (e : VersionEntry) (m : ContextManifest)
    (hm : kvGet s.contextManifests ctx = some m)
    (hv : m.versions = [(V, e)]) :
    deleteVersion s ctx V = { s with error := some "Kann letzte Version nicht löschen" } := by
  unfold deleteVersion
  rw [hm]
  have : kvDel m.versions V = [] := by
    rw [hv]
    simp [kvDel]
  simp [this]

/-- Closed witness for C5 at the one-version fixture. -/
theorem deleteVersion_last_version_protected_witness :
    deleteVersion stSolo "default" "1.0.0" =
      { stSolo with error := some "Kann letzte Version nicht löschen" } :=
  deleteVersion_last_version_protected stSolo "default" "1.0.0"
    { releaseDate := "2026-01-01", schemas := ["core.json"] } manSolo rfl rfl

/-- C6: deleting a group removes it from the schema's group list and, in
the same update, clears the `group` reference of every field that pointed
at it; every field keeps all its other attributes (the update is exactly
the reference-clearing map over the original field list). -/
theorem deleteGroup_cleans_references (s : Store) (schemaFile groupId : String)
    (D : SchemaDefinition)
    (h : kvGet s.schemas (cacheKey s.activeContext s.activeVersion schemaFile) = some D) :
    kvGet (deleteGroup s schemaFile groupId).schemas
        (cacheKey s.activeContext s.activeVersion schemaFile) =
      some { D with
        groups := D.groups.filter (fun g => g.id ≠ groupId),
        fields := D.fields.map (fun f =>
          if f.group = some groupId then { f with group := none } else f) } ∧
    (∀ g ∈ (D.groups.filter (fun g => g.id ≠ groupId)), g.id ≠ groupId) ∧
    (∀ f' ∈ (D.fields.map (fun f =>
        if f.group = some groupId then { f with group := none } else f)),
      f'.group ≠ some groupId) := by
  refine ⟨?_, ?_, ?_⟩
  · simp only [deleteGroup, h]
    simp
  · intro g hg
    have := List.of_mem_filter hg
    simpa using this
  · intro f' hf'
    rcases List.mem_map.1 hf' with ⟨f, _, he⟩
    by_cases hg : f.group = some groupId
    · rw [if_pos hg] at he
      rw [← he]
      simp
    · rw [if_neg hg] at he
      rw [← he]
      exact hg

/-- Closed witness for C6: deleting `"general"` from the fixture schema. -/
theorem deleteGroup_cleans_references_witness :
    kvGet (deleteGroup st0 "core.json" "general").schemas
        (cacheKey st0.activeContext st0.activeVersion "core.json") =
      some { coreSchema with
        groups := coreSchema.groups.filter (fun g => g.id ≠ "general"),
        fields := coreSchema.fields.map (fun f =>
          if f.group = some "general" then { f with group := none } else f) } ∧
    (∀ g ∈ (coreSchema.groups.filter (fun g => g.id ≠ "general")), g.id ≠ "general") ∧
    (∀ f' ∈ (coreSchema.fields.map (fun f =>
        if f.group = some "general" then { f with group := none } else f)),
      f'.group ≠ some "general") :=
  deleteGroup_cleans_references st0 "core.json" "general" coreSchema rfl

/-- C8: `getContentTypes` returns exactly one `{label, icon, schema_file}`
entry per concept carrying a non-empty `schema_file` in the vocabulary of
the field `"ccm:oeh_flex_lrt"` of the active context+version's
`core.json`, defaulting a missing icon to `"article"`, and returns the
empty list (never erroring) when `core.json`, that field, or its
vocabulary is absent. -/
theorem getContentTypes_projection (s : Store) :
    (kvGet s.schemas (cacheKey s.activeContext s.activeVersion "core.json") = none →
      getContentTypes s = []) ∧
    (∀ D, kvGet s.schemas (cacheKey s.activeContext s.activeVersion "core.json") = some D →
      (D.fields.find? (fun f => f.id == "ccm:oeh_flex_lrt") = none →
        getContentTypes s = []) ∧
      (∀ lrtField, D.fields.find? (fun f => f.id == "ccm:oeh_flex_lrt") = some lrtField →
        (lrtField.system.vocabulary = none → getContentTypes s = []) ∧
        (∀ voc, lrtField.system.vocabulary = some voc →
          getContentTypes s =
            (voc.concepts.filter (fun c => jsTruthyStr c.schema_file)).map (fun c =>
              { label := c.label
                icon := jsOrOpt c.icon "article"
                schema_file := c.schema_file.getD "" })))) := by
  refine ⟨?_, ?_⟩
  · intro h
    simp only [getContentTypes, h]
  · intro D hD
    refine ⟨?_, ?_⟩
    · intro h
      simp only [getContentTypes, hD, h]
    · intro lrtField hf
      refine ⟨?_, ?_⟩
      · intro h
        simp only [getContentTypes, hD, hf, h]
      · intro voc hv
        simp only [getContentTypes, hD, hf, hv]

/-- Closed witness for C8: on the fixture store the projection yields
exactly the single registered content type. -/
theorem getContentTypes_projection_witness :
    getContentTypes st0 = [
      { label := LocStrOr.loc ⟨"Ereignis", "Event"⟩, icon := "event",
        schema_file := "event.json" } ] := by
  have h := ((((getContentTypes_projection st0).2 coreSchema rfl).2
    { id := "ccm:oeh_flex_lrt", label := LocStrOr.str "lrt",
      system := { sys0 with vocabulary := some voc0 } } rfl).2 voc0 rfl)
  rw [h]
  rfl

/-- C10: for every cached schema, field id, and integer target index
(negative or past the end included), `moveField` permutes the field list
(same elements, same multiplicities) and leaves the groups and every
other schema property unchanged; it is a no-op when the schema is not
cached or the field is not found. -/
theorem moveField_permutes (s : Store) (schemaFile fieldId : String) (newIndex : Int) :
    (kvGet s.schemas (cacheKey s.activeContext s.activeVersion schemaFile) = none →
      moveField s schemaFile fieldId newIndex = s) ∧
    (∀ D, kvGet s.schemas (cacheKey s.activeContext s.activeVersion schemaFile) = some D →
      (D.fields.findIdx? (fun f => f.id == fieldId) = none →
        moveField s schemaFile fieldId newIndex = s) ∧
      (∀ i, D.fields.findIdx? (fun f => f.id == fieldId) = some i →
        ∃ D', kvGet (moveField s schemaFile fieldId newIndex).schemas
            (cacheKey s.activeContext s.activeVersion schemaFile) = some D' ∧
          D'.fields.Perm D.fields ∧
          D'.groups = D.groups ∧
          D'.profileId = D.profileId ∧
          D'.version = D.version ∧
          D'.«@context» = D.«@context» ∧
          D'.output_template = D.output_template)) := by
  refine ⟨?_, ?_⟩
  · intro h
    simp only [moveField, h]
  · intro D hD
    refine ⟨?_, ?_⟩
    · intro h
      simp only [moveField, hD, h]
    · intro i hidx
      have hlt : i < D.fields.length := findIdxQ_lt_length hidx
      have hget : D.fields[i]? = some (D.fields.get ⟨i, hlt⟩) := by
        rw [List.getElem?_eq_getElem hlt]
        rfl
      refine ⟨{ D with fields := jsInsertAt (D.fields.eraseIdx i) (spliceIndex (D.fields.eraseIdx i).length newIndex) (D.fields.get ⟨i, hlt⟩) }, ?_, ?_, rfl, rfl, rfl, rfl, rfl⟩
      · simp only [moveField, hD, hidx, hget]
        simp
      · exact (jsInsertAt_perm _ _ _).trans (perm_cons_eraseIdx hget)

/-- Closed witness for C10: moving `"cclom:title"` to the front of the
fixture schema. -/
theorem moveField_permutes_witness :
    ∃ D', kvGet (moveField st0 "core.json" "cclom:title" (-1)).schemas
        (cacheKey st0.activeContext st0.activeVersion "core.json") = some D' ∧
      D'.fields.Perm coreSchema.fields ∧
      D'.groups = coreSchema.groups ∧
      D'.profileId = coreSchema.profileId ∧
      D'.version = coreSchema.version ∧
      D'.«@context» = coreSchema.«@context» ∧
      D'.output_template = coreSchema.output_template :=
  ((moveField_permutes st0 "core.json" "cclom:title" (-1)).2 coreSchema rfl).2 1 rfl

/-- Two appended strings differ whenever their left parts disagree at a
character position inside both; discharges cache-key disjointness at
concrete inputs. -/
theorem append_ne_append_of_disagree (j : Nat) (a b f g : String)
    (hne : a.data[j]? ≠ b.data[j]?)
    (hja : j < a.data.length) (hjb : j < b.data.length) :
    a ++ f ≠ b ++ g := by
  intro he
  apply hne
  have hd : a.data ++ f.data = b.data ++ g.data := congrArg String.data he
  calc a.data[j]? = (a.data ++ f.data)[j]? := (List.getElem?_append_left hja).symm
    _ = (b.data ++ g.data)[j]? := by rw [hd]
    _ = b.data[j]? := List.getElem?_append_left hjb

/-- Unfolding equation for one step of the copy loop. -/
theorem copyVersionSchemas_cons (ctx base newV x : String) (t : List String)
    (m : KVList SchemaDefinition) :
    copyVersionSchemas ctx base newV (x :: t) m =
      copyVersionSchemas ctx base newV t
        (match kvGet m (cacheKey ctx base x) with
         | none => m
         | some b => kvSet m (cacheKey ctx newV x) { b with version := newV }) := rfl

/-- Characterization of the `createVersion` copy loop: any lookup in the
result is either untouched, or is the stamped clone of a base-version
document of one of the listed files. Requires that new-version keys never
collide with base-version keys (`hdisj`), so that reading base documents
from the growing map equals reading them from the initial one. -/
theorem copyVersionSchemas_spec (ctx base newV : String)
    (hdisj : ∀ f f', cacheKey ctx newV f ≠ cacheKey ctx base f') :
    ∀ (l : List String) (m S : KVList SchemaDefinition),
      (∀ f, kvGet m (cacheKey ctx base f) = kvGet S (cacheKey ctx base f)) →
      ∀ k,
        kvGet (copyVersionSchemas ctx base newV l m) k = kvGet m k ∨
        ∃ f ∈ l, ∃ b, kvGet S (cacheKey ctx base f) = some b ∧
          k = cacheKey ctx newV f ∧
          kvGet (copyVersionSchemas ctx base newV l m) k =
            some { b with version := newV } := by
  intro l
  induction l with
  | nil =>
    intro m S hinv k
    left
    rfl
  | cons x t ih =>
    intro m S hinv k
    rw [copyVersionSchemas_cons]
    split
    · rcases ih m S hinv k with h | ⟨f, hf, b, hb, hk, hres⟩
      · left; exact h
      · right; exact ⟨f, List.mem_cons_of_mem _ hf, b, hb, hk, hres⟩
    · next b hx =>
        have hinv' : ∀ f, kvGet (kvSet m (cacheKey ctx newV x) { b with version := newV })
            (cacheKey ctx base f) = kvGet S (cacheKey ctx base f) := by
          intro f
          rw [kvGet_kvSet_ne _ _ _ _ (fun he => hdisj x f he.symm)]
          exact hinv f
        rcases ih (kvSet m (cacheKey ctx newV x) { b with version := newV }) S hinv' k with
          h | ⟨f, hf, b', hb', hk, hres⟩
        · by_cases hkx : k = cacheKey ctx newV x
          · right
            refine ⟨x, List.mem_cons_self _ _, b, ?_, hkx, ?_⟩
            · rw [← hinv x]; exact hx
            · rw [h, hkx, kvGet_kvSet_self]
          · left
            rw [h, kvGet_kvSet_ne _ _ _ _ hkx]
        · right
          exact ⟨f, List.mem_cons_of_mem _ hf, b', hb', hk, hres⟩

/-- C7: after `createVersion(ctx, newV, base)` every schema document
materialized under `ctx@newV` carries `version = newV` and is the
stamped structural clone of the corresponding base-version document,
which itself remains cached unchanged (so mutating one can never affect
the other). Freshness of the new version's key space and disjointness
from the base keys are the preconditions of creating a genuinely new
version. -/
theorem createVersion_stamps_version (releaseDate nowISO : String) (s : Store)
    (ctx newV base : String) (m : ContextManifest)
    (hm : kvGet s.contextManifests ctx = some m)
    (hbase : base ≠ "")
    (hdisj : ∀ f f', cacheKey ctx newV f ≠ cacheKey ctx base f')
    (hfresh : ∀ f, kvGet s.schemas (cacheKey ctx newV f) = none) :
    ∀ f d, kvGet (createVersion releaseDate nowISO s ctx newV (some base)).schemas
        (cacheKey ctx newV f) = some d →
      d.version = newV ∧
      ∃ b, kvGet s.schemas (cacheKey ctx base f) = some b ∧
        d = { b with version := newV } ∧
        kvGet (createVersion releaseDate nowISO s ctx newV (some base)).schemas
          (cacheKey ctx base f) = some b := by
  have hred : (createVersion releaseDate nowISO s ctx newV (some base)).schemas
      = copyVersionSchemas ctx base newV
          (match kvGet m.versions base with
           | some ve => ve.schemas
           | none => ["core.json"]) s.schemas := by
    simp only [createVersion, hm]
    simp [hbase]
  intro f d hd
  rw [hred] at hd
  rcases copyVersionSchemas_spec ctx base newV hdisj _ s.schemas s.schemas
      (fun _ => rfl) (cacheKey ctx newV f) with h | ⟨f', hf', b, hb, hk, hres⟩
  · rw [hd, hfresh f] at h
    exact absurd h (by simp)
  · have hff : f = f' := cacheKey_inj_file hk
    have hdb : d = { b with version := newV } := by
      rw [hd] at hres
      exact Option.some.inj hres
    refine ⟨by rw [hdb], b, ?_, hdb, ?_⟩
    · rw [hff]; exact hb
    · rw [hred]
      rcases copyVersionSchemas_spec ctx base newV hdisj _ s.schemas s.schemas
          (fun _ => rfl) (cacheKey ctx base f) with h2 | ⟨f'', _, b'', _, hk2, _⟩
      · rw [h2, hff]; exact hb
      · exact absurd hk2.symm (hdisj f'' f)

/-- Closed witness for C7: creating version `3.0.0` of the fixture
context based on `1.0.0` yields the stamped clone of `core.json`. -/
theorem createVersion_stamps_version_witness :
    ({ coreSchema with version := "3.0.0" } : SchemaDefinition).version = "3.0.0" ∧
    ∃ b, kvGet st0.schemas (cacheKey "default" "1.0.0" "core.json") = some b ∧
      ({ coreSchema with version := "3.0.0" } : SchemaDefinition) = { b with version := "3.0.0" } ∧
      kvGet (createVersion "2026-02-01" "2026-02-01T00:00:00Z" st0 "default" "3.0.0"
          (some "1.0.0")).schemas (cacheKey "default" "1.0.0" "core.json") = some b := by
  exact createVersion_stamps_version "2026-02-01" "2026-02-01T00:00:00Z" st0 "default" "3.0.0"
    "1.0.0" man0 rfl (by decide)
    (fun f f' =>
      show ¬ (cacheKey "default" "3.0.0" f = cacheKey "default" "1.0.0" f') from
        append_ne_append_of_disagree 8 ("default" ++ "@" ++ "3.0.0" ++ "/")
          ("default" ++ "@" ++ "1.0.0" ++ "/") f f' (by decide) (by decide) (by decide))
    (by
      intro f
      show kvGet [(cacheKey "default" "1.0.0" "core.json", coreSchema),
        (cacheKey "default" "2.0.0" "core.json", { coreSchema with version := "2.0.0" })]
        (cacheKey "default" "3.0.0" f) = none
      rw [kvGet_cons, if_neg (show ¬ (cacheKey "default" "1.0.0" "core.json" = cacheKey "default" "3.0.0" f) from
          append_ne_append_of_disagree 8 ("default" ++ "@" ++ "1.0.0" ++ "/")
            ("default" ++ "@" ++ "3.0.0" ++ "/") "core.json" f (by decide) (by decide) (by decide)),
        kvGet_cons, if_neg (show ¬ (cacheKey "default" "2.0.0" "core.json" = cacheKey "default" "3.0.0" f) from
          append_ne_append_of_disagree 8 ("default" ++ "@" ++ "2.0.0" ++ "/")
            ("default" ++ "@" ++ "3.0.0" ++ "/") "core.json" f (by decide) (by decide) (by decide))]
      rfl)
    "core.json" { coreSchema with version := "3.0.0" } rfl

/-- The coherence property C9 asserts of the four cursors: the active
context is registered, the active version exists in that context's
manifest, a non-null active schema file is listed in that version, and a
non-null active field id names a field of the active schema. -/
def cursorsCoherent (s : Store) : Bool :=
  match s.contextRegistry with
  | none => false
  | some registry =>
    match kvGet registry.contexts s.activeContext with
    | none => false
    | some _ =>
      match kvGet s.contextManifests s.activeContext with
      | none => false
      | some manifest =>
        match kvGet manifest.versions s.activeVersion with
        | none => false
        | some ve =>
          (match s.activeSchemaFile with
           | none => true
           | some f => ve.schemas.contains f) &&
          (match s.activeFieldId with
           | none => true
           | some fid =>
             match s.activeSchemaFile with
             | none => false
             | some f =>
               match kvGet s.schemas (cacheKey s.activeContext s.activeVersion f) with
               | none => false
               | some D => D.fields.any (fun fl => fl.id == fid))

/-- A state built purely by store operations from `initialState`: import
an archive, then navigate context, schema and field. Its cursors are
coherent. -/
def stReach : Store :=
  setActiveField
    (setActiveSchema
      (setActiveContext (importFromZip initialState (ZipData.files (exportZipEntries st0 reg0))).2
        "default")
      (some "core.json"))
    (some "cclom:title")

/-- C9 counterexample: cursor coherence is not an invariant of the store
operations. From the coherent reachable state `stReach`, a single
`setActiveField` call with an id that names no field of the active
schema yields an incoherent cursor combination (the operation performs
no validation). -/
theorem cursor_coherence_counterexample :
    cursorsCoherent stReach = true ∧
    cursorsCoherent (setActiveField stReach (some "no:such_field")) = false :=
  ⟨rfl, rfl⟩

/-- C9 amended: what the navigation actions do guarantee is the cascading
reset: changing context (to a registered one) resets the version to that
context's default and clears the schema and field cursors; changing
version clears the schema and field cursors; changing schema clears the
field cursor; changing the field touches nothing else. The operations do
not validate their argument, so full four-cursor coherence is not
maintained. -/
theorem cascading_cursor_reset (s : Store) :
    (∀ c r e, s.contextRegistry = some r → kvGet r.contexts c = some e →
      setActiveContext s c = { s with activeContext := c, activeVersion := e.defaultVersion, activeSchemaFile := none, activeFieldId := none }) ∧
    (∀ v, setActiveVersion s v = { s with activeVersion := v, activeSchemaFile := none, activeFieldId := none }) ∧
    (∀ f, setActiveSchema s f = { s with activeSchemaFile := f, activeFieldId := none }) ∧
    (∀ fid, setActiveField s fid = { s with activeFieldId := fid }) := by
  refine ⟨?_, fun v => rfl, fun f => rfl, fun fid => rfl⟩
  intro c r e h1 h2
  simp only [setActiveContext, h1, h2]

/-- Closed witness for the amended C9 at the fixture store. -/
theorem cascading_cursor_reset_witness :
    setActiveContext st0 "default" = { st0 with activeContext := "default", activeVersion := "1.0.0", activeSchemaFile := none, activeFieldId := none } :=
  (cascading_cursor_reset st0).1 "default" reg0
    { name := "Default", defaultVersion := "1.0.0", path := "default" } rfl rfl

/-- C3 counterexample: a document whose top level lacks the
`context-registry.json` key but carries a `contexts` key is accepted:
`importData` returns `true`, not `false`. -/
theorem importData_missing_registry_counterexample :
    (importData st0 (some { contexts := some [] })).1 = true := rfl

/-- C3 amended: `importData` treats the input as invalid only when both
the `context-registry.json` key and the `contexts` key are missing; in
that case it returns `false` and leaves the state unchanged. When a
`contexts` key is present the import proceeds and returns `true` even
without a registry key. -/
theorem importData_invalid_iff_both_missing (s : Store) (d : ImportDoc)
    (hreg : d.registryFile = none) :
    (d.contexts = none → importData s (some d) = (false, s)) ∧
    (∀ ctxs, d.contexts = some ctxs → (importData s (some d)).1 = true) := by
  constructor
  · intro hc
    simp only [importData, hreg, hc]
    rfl
  · intro ctxs hc
    simp only [importData, hreg, hc]
    rfl

/-- Closed witness for the amended C3: the empty document is rejected
without a state change. -/
theorem importData_invalid_iff_both_missing_witness :
    importData st0 (some {}) = (false, st0) :=
  (importData_invalid_iff_both_missing st0 {} rfl).1 rfl

/-- C2: `importFromZip` returns `false` and leaves the state completely
unchanged whenever the archive is unreadable, lacks a root
`context-registry.json` entry, or any parse step of the archive throws
(`importZipCore` aborts); state is committed only on a fully successful
import. -/
theorem importFromZip_failure_leaves_state (s : Store) (z : ZipData)
    (h : z = ZipData.corrupt ∨
      ∃ entries, z = ZipData.files entries ∧
        (kvGet entries "context-registry.json" = none ∨ importZipCore entries = none)) :
    importFromZip s z = (false, s) := by
  rcases h with h | ⟨entries, he, h⟩
  · subst h
    rfl
  · subst he
    rcases h with h | h
    · have hcore : importZipCore entries = none := by
        simp only [importZipCore, h]
        rfl
      simp only [importFromZip, hcore]
    · simp only [importFromZip, h]

/-- Closed witness for C2: an archive without the root registry entry is
rejected and the store is untouched. -/
theorem importFromZip_failure_leaves_state_witness :
    importFromZip st0 (ZipData.files []) = (false, st0) :=
  importFromZip_failure_leaves_state st0 (ZipData.files [])
    (Or.inr ⟨[], rfl, Or.inl rfl⟩)

/-!
Round trip (claim C1). `exportAsZip` walks the manifest map and writes
only schema documents that are both manifest-listed and cached;
`importFromZip` walks the imported registry and manifests and rebuilds
exactly those entries. The keys that survive are `exportedSchemaKeys`;
cached documents outside it (orphans left behind by `deleteVersion` /
`deleteContext`) are dropped, which refutes the claim as stated and
bounds the amendment.
-/

/-- Keys of the schema documents the archive carries for one context's
versions map: manifest-listed files present in the cache. -/
def versionsHitKeys (S : KVList SchemaDefinition) (contextName : String)
    (versions : KVList VersionEntry) : List String :=
  versions.flatMap (fun vv =>
    (vv.2.schemas.filter (fun f => (kvGet S (cacheKey contextName vv.1 f)).isSome)).map
      (fun f => cacheKey contextName vv.1 f))

/-- Keys of all schema documents the archive round trip preserves. -/
def exportedSchemaKeys (s : Store) : List String :=
  s.contextManifests.flatMap (fun cm => versionsHitKeys s.schemas cm.1 cm.2.versions)

/-- The same keys, walked registry-first as `importFromZip` does. -/
def contextsHitKeys (s : Store) (l : List (String × ContextEntry)) : List String :=
  l.flatMap (fun ce =>
    match kvGet s.contextManifests ce.1 with
    | none => []
    | some mc => versionsHitKeys s.schemas ce.1 mc.versions)

/-- Unfolding `foldlM` in the `Option` monad. -/
theorem foldlM_cons_option {α β : Type} (g : β → α → Option β) (b : β) (x : α)
    (t : List α) :
    (x :: t).foldlM g b = (g b x).bind (fun y => t.foldlM g y) := rfl

theorem mem_kvKeys_of_kvGet {α : Type} {m : KVList α} {k : String} {v : α}
    (h : kvGet m k = some v) : k ∈ kvKeys m :=
  List.mem_map.2 ⟨(k, v), kvGet_mem h, rfl⟩

/-- Sanity of a store state for archive round-tripping, all decidable at
concrete inputs: a loaded registry with distinct context names, manifests
only for registered contexts, and an archive whose file paths are
pairwise distinct and where the paths of unwritten files (contexts
without manifests, listed-but-uncached documents) do not collide with
written ones. -/
structure ArchiveSane (s : Store) (r : ContextRegistry) : Prop where
  hreg : s.contextRegistry = some r
  hKnd : (kvKeys r.contexts).Nodup
  hMnd : (kvKeys s.contextManifests).Nodup
  hMK : ∀ c ∈ kvKeys s.contextManifests, c ∈ kvKeys r.contexts
  hPnd : (kvKeys (exportZipEntries s r)).Nodup
  hNoMan : ∀ c ∈ kvKeys r.contexts, c ∉ kvKeys s.contextManifests →
    manifestPath (resolvedPath r c) ∉ kvKeys (exportZipEntries s r)
  hNoSch : ∀ cm ∈ s.contextManifests, ∀ vv ∈ cm.2.versions, ∀ f ∈ vv.2.schemas,
    (kvGet s.schemas (cacheKey cm.1 vv.1 f)).isSome = false →
    schemaPath (resolvedPath r cm.1) vv.1 f ∉ kvKeys (exportZipEntries s r)

theorem export_manifest_mem (s : Store) (r : ContextRegistry)
    {cm : String × ContextManifest} (hcm : cm ∈ s.contextManifests) :
    (manifestPath (resolvedPath r cm.1), FileContent.man cm.2) ∈ exportZipEntries s r := by
  unfold exportZipEntries
  exact List.mem_cons_of_mem _ (List.mem_flatMap.2 ⟨cm, hcm, List.mem_cons_self _ _⟩)

theorem export_schema_mem (s : Store) (r : ContextRegistry)
    {cm : String × ContextManifest} (hcm : cm ∈ s.contextManifests)
    {vv : String × VersionEntry} (hvv : vv ∈ cm.2.versions)
    {f : String} (hf : f ∈ vv.2.schemas) {sch : SchemaDefinition}
    (hhit : kvGet s.schemas (cacheKey cm.1 vv.1 f) = some sch) :
    (schemaPath (resolvedPath r cm.1) vv.1 f, FileContent.sch sch) ∈ exportZipEntries s r := by
  unfold exportZipEntries
  refine List.mem_cons_of_mem _ (List.mem_flatMap.2 ⟨cm, hcm, List.mem_cons_of_mem _ ?_⟩)
  exact List.mem_flatMap.2 ⟨vv, hvv, List.mem_filterMap.2 ⟨f, hf, by rw [hhit]; rfl⟩⟩

/-- The schema-file loop of `importFromZip` for one version: it always
succeeds when every file path in the archive parses, and its result is
the initial map overlaid with the cached documents of the listed files. -/
theorem files_fold_spec (entries : List (String × FileContent))
    (c contextPath ver : String) (S : KVList SchemaDefinition) :
    ∀ (fl : List String),
      (∀ f ∈ fl, kvGet entries (schemaPath contextPath ver f) =
        (kvGet S (cacheKey c ver f)).map FileContent.sch) →
      ∀ ss0 : KVList SchemaDefinition, ∃ ss,
        fl.foldlM (fun ss f =>
          match kvGet entries (schemaPath contextPath ver f) with
          | none => some ss
          | some fc => (parseSchemaFile fc).map (fun sch => kvSet ss (cacheKey c ver f) sch))
          ss0 = some ss ∧
        ∀ k, kvGet ss k =
          if k ∈ (fl.filter (fun f => (kvGet S (cacheKey c ver f)).isSome)).map
              (fun f => cacheKey c ver f)
          then kvGet S k else kvGet ss0 k := by
  intro fl
  induction fl with
  | nil =>
    intro _ ss0
    exact ⟨ss0, rfl, by simp⟩
  | cons f t ih =>
    intro hfind ss0
    have hf := hfind f (List.mem_cons_self _ _)
    have hfind' : ∀ g ∈ t, kvGet entries (schemaPath contextPath ver g) =
        (kvGet S (cacheKey c ver g)).map FileContent.sch :=
      fun g hg => hfind g (List.mem_cons_of_mem _ hg)
    cases hS : kvGet S (cacheKey c ver f) with
    | none =>
      rw [hS] at hf
      obtain ⟨ss, hfold, hchar⟩ := ih hfind' ss0
      refine ⟨ss, ?_, ?_⟩
      · rw [foldlM_cons_option, hf]
        exact hfold
      · intro k
        rw [hchar k, List.filter_cons, hS]
        simp
    | some sch =>
      rw [hS] at hf
      obtain ⟨ss, hfold, hchar⟩ := ih hfind' (kvSet ss0 (cacheKey c ver f) sch)
      refine ⟨ss, ?_, ?_⟩
      · rw [foldlM_cons_option, hf]
        exact hfold
      · intro k
        rw [hchar k, kvGet_kvSet, List.filter_cons]
        by_cases h1 : k ∈ (t.filter (fun g => (kvGet S (cacheKey c ver g)).isSome)).map
            (fun g => cacheKey c ver g)
        · simp [hS, h1]
        · by_cases h2 : k = cacheKey c ver f
          · simp [hS, h1, h2]
          · simp [hS, h1, h2]

/-- The per-manifest schema-loading loop of `importFromZip`: succeeds and
overlays the initial map with the cached documents of all listed files of
all versions. -/
theorem importZipSchemas_spec (entries : List (String × FileContent))
    (c contextPath : String) (S : KVList SchemaDefinition) :
    ∀ (vl : KVList VersionEntry),
      (∀ vv ∈ vl, ∀ f ∈ vv.2.schemas, kvGet entries (schemaPath contextPath vv.1 f) =
        (kvGet S (cacheKey c vv.1 f)).map FileContent.sch) →
      ∀ ss0 : KVList SchemaDefinition, ∃ ss,
        vl.foldlM (fun ss vv =>
          vv.2.schemas.foldlM (fun ss schemaFile =>
            match kvGet entries (schemaPath contextPath vv.1 schemaFile) with
            | none => some ss
            | some fc =>
              (parseSchemaFile fc).map (fun sch =>
                kvSet ss (cacheKey c vv.1 schemaFile) sch)) ss) ss0 = some ss ∧
        ∀ k, kvGet ss k =
          if k ∈ versionsHitKeys S c vl then kvGet S k else kvGet ss0 k := by
  intro vl
  induction vl with
  | nil =>
    intro _ ss0
    exact ⟨ss0, rfl, by simp [versionsHitKeys]⟩
  | cons vv t ih =>
    intro hfind ss0
    obtain ⟨ss1, hf1, hc1⟩ := files_fold_spec entries c contextPath vv.1 S vv.2.schemas
      (fun f hf => hfind vv (List.mem_cons_self _ _) f hf) ss0
    obtain ⟨ss, hf2, hc2⟩ :=
      ih (fun w hw f hf => hfind w (List.mem_cons_of_mem _ hw) f hf) ss1
    refine ⟨ss, ?_, ?_⟩
    · rw [foldlM_cons_option, hf1]
      exact hf2
    · intro k
      rw [hc2 k]
      by_cases h1 : k ∈ versionsHitKeys S c t
      · have hmem : k ∈ versionsHitKeys S c (vv :: t) := by
          simp only [versionsHitKeys, List.flatMap_cons, List.mem_append]
          right
          simpa [versionsHitKeys] using h1
        rw [if_pos h1, if_pos hmem]
      · rw [if_neg h1, hc1 k]
        by_cases h2 : k ∈ (vv.2.schemas.filter
            (fun f => (kvGet S (cacheKey c vv.1 f)).isSome)).map (fun f => cacheKey c vv.1 f)
        · have hmem : k ∈ versionsHitKeys S c (vv :: t) := by
            simp only [versionsHitKeys, List.flatMap_cons, List.mem_append]
            left
            exact h2
          rw [if_pos h2, if_pos hmem]
        · have h3 : k ∉ versionsHitKeys S c (vv :: t) := by
            simp only [versionsHitKeys, List.flatMap_cons, List.mem_append]
            rintro (h | h)
            · exact h2 h
            · exact h1 (by simpa [versionsHitKeys] using h)
          rw [if_neg h2, if_neg h3]

/-- The per-context loop of `importFromZip`, run on an archive produced
by `exportAsZip` from a sane store: it never throws, rebuilds exactly the
manifests of the processed registered contexts, and overlays the schema
map with exactly the manifest-listed cached documents. -/
theorem importZipContexts_spec (s : Store) (r : ContextRegistry) (hs : ArchiveSane s r) :
    ∀ (l : List (String × ContextEntry)), (∀ ce ∈ l, ce ∈ r.contexts) →
    ∀ (ms0 : KVList ContextManifest) (ss0 : KVList SchemaDefinition),
    ∃ ms ss,
      l.foldlM (fun acc ce =>
        match kvGet (exportZipEntries s r) (manifestPath (jsOrS ce.2.path ce.1)) with
        | none => pure acc
        | some mf => do
          let manifest ← parseManifestFile mf
          let ss ← importZipSchemas (exportZipEntries s r) ce.1 (jsOrS ce.2.path ce.1)
            manifest acc.2
          pure (kvSet acc.1 ce.1 manifest, ss)) (ms0, ss0) = some (ms, ss) ∧
      (∀ c, kvGet ms c =
        if c ∈ kvKeys l ∧ c ∈ kvKeys s.contextManifests
        then kvGet s.contextManifests c else kvGet ms0 c) ∧
      (∀ k, kvGet ss k =
        if k ∈ contextsHitKeys s l then kvGet s.schemas k else kvGet ss0 k) := by
  intro l
  induction l with
  | nil =>
    intro _ ms0 ss0
    exact ⟨ms0, ss0, rfl, by simp, by simp [contextsHitKeys]⟩
  | cons ce t ih =>
    intro hsub ms0 ss0
    have hce : ce ∈ r.contexts := hsub ce (List.mem_cons_self _ _)
    have hgetce : kvGet r.contexts ce.1 = some ce.2 :=
      kvGet_eq_of_mem_of_nodup hce hs.hKnd
    have hpath : resolvedPath r ce.1 = jsOrS ce.2.path ce.1 := by
      rw [resolvedPath, hgetce]
      rfl
    cases hM : kvGet s.contextManifests ce.1 with
    | none =>
      have hnotM : ce.1 ∉ kvKeys s.contextManifests := by
        intro hmem
        rcases List.mem_map.1 hmem with ⟨p, hp, he⟩
        have hsome := kvGet_isSome_of_mem (m := s.contextManifests) (k := p.1) (v := p.2) hp
        rw [he, hM] at hsome
        simp at hsome
      have hlook : kvGet (exportZipEntries s r)
          (manifestPath (jsOrS ce.2.path ce.1)) = none := by
        rw [← hpath]
        exact kvGet_eq_none_of_not_mem
          (hs.hNoMan ce.1 (List.mem_map.2 ⟨ce, hce, rfl⟩) hnotM)
      obtain ⟨ms, ss, hfold, hm, hsch⟩ :=
        ih (fun x hx => hsub x (List.mem_cons_of_mem _ hx)) ms0 ss0
      refine ⟨ms, ss, ?_, ?_, ?_⟩
      · rw [foldlM_cons_option, hlook]
        exact hfold
      · intro c
        rw [hm c]
        by_cases h1 : c ∈ kvKeys t ∧ c ∈ kvKeys s.contextManifests
        · have h2 : c ∈ kvKeys (ce :: t) ∧ c ∈ kvKeys s.contextManifests :=
            ⟨by rw [kvKeys_cons]; exact List.mem_cons_of_mem _ h1.1, h1.2⟩
          rw [if_pos h1, if_pos h2]
        · have hcond : ¬ (c ∈ kvKeys (ce :: t) ∧ c ∈ kvKeys s.contextManifests) := by
            rintro ⟨hc1, hc2⟩
            rw [kvKeys_cons] at hc1
            rcases List.mem_cons.1 hc1 with he | ht
            · exact hnotM (he ▸ hc2)
            · exact h1 ⟨ht, hc2⟩
          rw [if_neg h1, if_neg hcond]
      · intro k
        rw [hsch k]
        have hsame : contextsHitKeys s (ce :: t) = contextsHitKeys s t := by
          simp [contextsHitKeys, List.flatMap_cons, hM]
        rw [hsame]
    | some mc =>
      have hmcMem : (ce.1, mc) ∈ s.contextManifests := kvGet_mem hM
      have hceM : ce.1 ∈ kvKeys s.contextManifests := mem_kvKeys_of_kvGet hM
      have hlookman : kvGet (exportZipEntries s r)
          (manifestPath (jsOrS ce.2.path ce.1)) = some (FileContent.man mc) := by
        rw [← hpath]
        exact kvGet_eq_of_mem_of_nodup (export_manifest_mem s r hmcMem) hs.hPnd
      have hfindAll : ∀ vv ∈ mc.versions, ∀ f ∈ vv.2.schemas,
          kvGet (exportZipEntries s r) (schemaPath (jsOrS ce.2.path ce.1) vv.1 f) =
            (kvGet s.schemas (cacheKey ce.1 vv.1 f)).map FileContent.sch := by
        intro vv hvv f hf
        rw [← hpath]
        cases hhit : kvGet s.schemas (cacheKey ce.1 vv.1 f) with
        | none =>
          exact kvGet_eq_none_of_not_mem
            (hs.hNoSch (ce.1, mc) hmcMem vv hvv f hf (by rw [hhit]; rfl))
        | some sch =>
          exact kvGet_eq_of_mem_of_nodup (export_schema_mem s r hmcMem hvv hf hhit) hs.hPnd
      obtain ⟨ss1, hf1, hc1⟩ := importZipSchemas_spec (exportZipEntries s r) ce.1
        (jsOrS ce.2.path ce.1) s.schemas mc.versions hfindAll ss0
      have hz : importZipSchemas (exportZipEntries s r) ce.1 (jsOrS ce.2.path ce.1) mc ss0
          = some ss1 := hf1
      obtain ⟨ms, ss, hfold, hm, hsch⟩ :=
        ih (fun x hx => hsub x (List.mem_cons_of_mem _ hx)) (kvSet ms0 ce.1 mc) ss1
      refine ⟨ms, ss, ?_, ?_, ?_⟩
      · rw [foldlM_cons_option, hlookman]
        show ((importZipSchemas (exportZipEntries s r) ce.1 (jsOrS ce.2.path ce.1) mc
            ss0).bind (fun ss2 => pure (kvSet ms0 ce.1 mc, ss2))).bind _ = some (ms, ss)
        rw [hz]
        exact hfold
      · intro c
        rw [hm c, kvGet_kvSet]
        by_cases h1 : c ∈ kvKeys t ∧ c ∈ kvKeys s.contextManifests
        · have h2 : c ∈ kvKeys (ce :: t) ∧ c ∈ kvKeys s.contextManifests :=
            ⟨by rw [kvKeys_cons]; exact List.mem_cons_of_mem _ h1.1, h1.2⟩
          rw [if_pos h1, if_pos h2]
        · by_cases h2 : c = ce.1
          · have h3 : c ∈ kvKeys (ce :: t) ∧ c ∈ kvKeys s.contextManifests :=
              ⟨by rw [kvKeys_cons, h2]; exact List.mem_cons_self _ _, by rw [h2]; exact hceM⟩
            rw [if_neg h1, if_pos h2, if_pos h3, h2, hM]
          · have hcond : ¬ (c ∈ kvKeys (ce :: t) ∧ c ∈ kvKeys s.contextManifests) := by
              rintro ⟨hc1, hc2⟩
              rw [kvKeys_cons] at hc1
              rcases List.mem_cons.1 hc1 with he | ht
              · exact h2 he
              · exact h1 ⟨ht, hc2⟩
            rw [if_neg h1, if_neg h2, if_neg hcond]
      · intro k
        rw [hsch k]
        have hsplit : contextsHitKeys s (ce :: t)
            = versionsHitKeys s.schemas ce.1 mc.versions ++ contextsHitKeys s t := by
          simp [contextsHitKeys, List.flatMap_cons, hM]
        by_cases h1 : k ∈ contextsHitKeys s t
        · have hmem : k ∈ contextsHitKeys s (ce :: t) := by
            rw [hsplit]; exact List.mem_append_right _ h1
          rw [if_pos h1, if_pos hmem]
        · rw [if_neg h1, hc1 k]
          by_cases h2 : k ∈ versionsHitKeys s.schemas ce.1 mc.versions
          · have hmem : k ∈ contextsHitKeys s (ce :: t) := by
              rw [hsplit]; exact List.mem_append_left _ h2
            rw [if_pos h2, if_pos hmem]
          · have hmem : k ∉ contextsHitKeys s (ce :: t) := by
              rw [hsplit]
              intro hk
              rcases List.mem_append.1 hk with h | h
              · exact h2 h
              · exact h1 h
            rw [if_neg h2, if_neg hmem]

/-- Registry-first and manifest-first walks hit the same schema keys. -/
theorem contextsHitKeys_eq_exported (s : Store) (r : ContextRegistry)
    (hMnd : (kvKeys s.contextManifests).Nodup)
    (hMK : ∀ c ∈ kvKeys s.contextManifests, c ∈ kvKeys r.contexts) :
    ∀ k, k ∈ contextsHitKeys s r.contexts ↔ k ∈ exportedSchemaKeys s := by
  intro k
  constructor
  · intro h
    rcases List.mem_flatMap.1 h with ⟨ce, hce, hk⟩
    cases hM : kvGet s.contextManifests ce.1 with
    | none =>
      rw [hM] at hk
      simp at hk
    | some mc =>
      rw [hM] at hk
      exact List.mem_flatMap.2 ⟨(ce.1, mc), kvGet_mem hM, hk⟩
  · intro h
    rcases List.mem_flatMap.1 h with ⟨cm, hcm, hk⟩
    have hc : kvGet s.contextManifests cm.1 = some cm.2 :=
      kvGet_eq_of_mem_of_nodup hcm hMnd
    have hcK : cm.1 ∈ kvKeys r.contexts := hMK cm.1 (List.mem_map.2 ⟨cm, hcm, rfl⟩)
    rcases List.mem_map.1 hcK with ⟨ce, hce, hfst⟩
    refine List.mem_flatMap.2 ⟨ce, hce, ?_⟩
    rw [hfst, hc]
    exact hfst ▸ hk

/-- C1 amended: for a sane store, `importFromZip ∘ exportAsZip` succeeds
and reconstructs the registry exactly, the manifest map lookup-equal, and
the schema cache restricted to `exportedSchemaKeys` (manifest-listed,
cached documents); when no cached document is orphaned, the schema cache
is reconstructed lookup-equal as well. -/
theorem roundtrip_reconstructs (s : Store) (r : ContextRegistry) (hs : ArchiveSane s r) :
    exportAsZip s = some (exportZipEntries s r) ∧
    (importFromZip s (ZipData.files (exportZipEntries s r))).1 = true ∧
    (importFromZip s (ZipData.files (exportZipEntries s r))).2.contextRegistry = some r ∧
    (∀ c, kvGet (importFromZip s (ZipData.files (exportZipEntries s r))).2.contextManifests c
      = kvGet s.contextManifests c) ∧
    (∀ k, kvGet (importFromZip s (ZipData.files (exportZipEntries s r))).2.schemas k
      = if k ∈ exportedSchemaKeys s then kvGet s.schemas k else none) ∧
    ((∀ p ∈ s.schemas, p.1 ∈ exportedSchemaKeys s) →
      ∀ k, kvGet (importFromZip s (ZipData.files (exportZipEntries s r))).2.schemas k
        = kvGet s.schemas k) := by
  obtain ⟨ms, ss, hfold, hm, hsch⟩ :=
    importZipContexts_spec s r hs r.contexts (fun _ h => h) [] []
  have hL1 : kvGet (exportZipEntries s r) "context-registry.json"
      = some (FileContent.reg r) := by
    rw [exportZipEntries, kvGet_cons]
    simp
  have hstep : importZipCore (exportZipEntries s r)
      = (r.contexts.foldlM (fun (acc : KVList ContextManifest × KVList SchemaDefinition)
            (ce : String × ContextEntry) =>
          match kvGet (exportZipEntries s r) (manifestPath (jsOrS ce.2.path ce.1)) with
          | none => pure acc
          | some mf => do
            let manifest ← parseManifestFile mf
            let ss ← importZipSchemas (exportZipEntries s r) ce.1 (jsOrS ce.2.path ce.1)
              manifest acc.2
            pure (kvSet acc.1 ce.1 manifest, ss))
          (([] : KVList ContextManifest), ([] : KVList SchemaDefinition))).bind
        (fun acc => some (r, acc.1, acc.2)) := by
    unfold importZipCore
    rw [hL1]
    rfl
  have hcore : importZipCore (exportZipEntries s r) = some (r, ms, ss) := by
    rw [hstep, hfold]
    rfl
  have himp : importFromZip s (ZipData.files (exportZipEntries s r))
      = (true, { s with contextRegistry := some r, contextManifests := ms, schemas := ss,
                        hasUnsavedChanges := true }) := by
    simp only [importFromZip, hcore]
  refine ⟨?_, ?_, ?_, ?_, ?_, ?_⟩
  · rw [exportAsZip, hs.hreg]
    rfl
  · rw [himp]
  · rw [himp]
  · intro c
    rw [himp]
    show kvGet ms c = _
    rw [hm c]
    by_cases hc : c ∈ kvKeys s.contextManifests
    · rw [if_pos ⟨hs.hMK c hc, hc⟩]
    · rw [if_neg (fun hh => hc hh.2), kvGet_nil, kvGet_eq_none_of_not_mem hc]
  · intro k
    rw [himp]
    show kvGet ss k = _
    rw [hsch k]
    by_cases hk : k ∈ contextsHitKeys s r.contexts
    · rw [if_pos hk, if_pos ((contextsHitKeys_eq_exported s r hs.hMnd hs.hMK k).1 hk)]
    · rw [if_neg hk,
        if_neg (fun hh => hk ((contextsHitKeys_eq_exported s r hs.hMnd hs.hMK k).2 hh))]
      exact kvGet_nil k
  · intro hall k
    rw [himp]
    show kvGet ss k = _
    rw [hsch k]
    by_cases hk : k ∈ contextsHitKeys s r.contexts
    · rw [if_pos hk]
    · rw [if_neg hk, kvGet_nil]
      cases hg : kvGet s.schemas k with
      | none => rfl
      | some v =>
        exact absurd ((contextsHitKeys_eq_exported s r hs.hMnd hs.hMK k).2
          (hall (k, v) (kvGet_mem hg))) hk

/-- Closed witness for the amended C1 on the fixture store (which has no
orphaned cache entries): import of the export succeeds and reproduces
manifest and schema lookups. -/
theorem roundtrip_reconstructs_witness :
    (importFromZip st0 (ZipData.files (exportZipEntries st0 reg0))).1 = true ∧
    kvGet (importFromZip st0 (ZipData.files (exportZipEntries st0 reg0))).2.contextManifests
      "default" = kvGet st0.contextManifests "default" ∧
    kvGet (importFromZip st0 (ZipData.files (exportZipEntries st0 reg0))).2.schemas
      (cacheKey "default" "1.0.0" "core.json")
      = kvGet st0.schemas (cacheKey "default" "1.0.0" "core.json") := by
  have h := roundtrip_reconstructs st0 reg0
    ⟨rfl, by decide, by decide, by decide, by decide, by decide, by decide⟩
  exact ⟨h.2.1, h.2.2.2.1 "default",
    h.2.2.2.2.2 (by decide) (cacheKey "default" "1.0.0" "core.json")⟩

/-- A state reached from `initialState` by `importFromZip` followed by
the §4 mutation `deleteVersion`: the cached document of the deleted
version stays in the cache (orphaned). -/
def stOrphan : Store :=
  deleteVersion (importFromZip initialState (ZipData.files (exportZipEntries st0 reg0))).2
    "default" "1.0.0"

/-- C1 counterexample: the round trip is not deep-equality on the schema
cache for every reachable state. After `deleteVersion`, the orphaned
document `default@1.0.0/core.json` is still cached, `exportAsZip` omits
it, and the reimported state no longer contains it. -/
theorem roundtrip_not_deep_equal_counterexample :
    kvGet stOrphan.schemas (cacheKey "default" "1.0.0" "core.json") = some coreSchema ∧
    exportAsZip stOrphan = some (exportZipEntries stOrphan reg0) ∧
    kvGet (importFromZip stOrphan (ZipData.files (exportZipEntries stOrphan reg0))).2.schemas
      (cacheKey "default" "1.0.0" "core.json") = none :=
  ⟨rfl, rfl, rfl⟩
